import Mathlib

/-!
Verification of the RecordConverter design of the
`sagemaker_portability_workshop` repository.

The repository's notebook invokes the dataset conversion script
(`utils/generate_cifar10_tfrecords.py`) and the container build/push shell
cell.  The conversion script itself ships with the repository but is not
present under `src/`; only its caller (the notebook cell invoking it and
listing the three produced `.tfrecords` files) is.  The RecordConverter
below is therefore modelled from the spec.  The Dockerfile and the
build-and-push shell cell ARE present verbatim in the notebook source and
are embedded directly.
-/

namespace RecordConverter

/-- The three dataset splits.  By construction they are pairwise disjoint
and exhaustive. -/
inductive Split where
  | train
  | validation
  | eval
deriving DecidableEq, Repr

/-- Modelled from the spec: a record as it sits inside an extracted batch
file: an integer class label, a declared payload byte length, and the raw
payload (image) bytes.  The spec's `MalformedRecord` condition is a
mismatch between `declaredLen` and the actual payload length. -/
structure RawRecord where
  label : Nat
  declaredLen : Nat
  payload : List Nat
deriving DecidableEq, Repr

/-- A validated record: one (label, image-bytes) pair. -/
structure Record where
  label : Nat
  image : List Nat
deriving DecidableEq, Repr

/-- Little-endian 32-bit encoding of a natural number (the spec fixes a
little-endian byte order for multi-byte header fields). -/
def le32 (n : Nat) : List Nat :=
  [n % 256, n / 256 % 256, n / 65536 % 256, n / 16777216 % 256]

/-- Frame type tag for an image record. -/
def frameTag : Nat := 1

/-- Fixed image dimensions of the dataset (CIFAR-10: 32 x 32 x 3). -/
def imageHeight : Nat := 32

def imageWidth : Nat := 32

def imageChannels : Nat := 3

/-- Modelled from the spec: the payload of a record's frame serialises the
(label, image bytes) pair: the label as a little-endian 32-bit field
followed by the raw image bytes. -/
def payloadBytes (r : Record) : List Nat :=
  le32 r.label ++ r.image

/-- Modelled from the spec: one self-describing binary frame,
[tag][dimensions][payload length][raw payload bytes], all multi-byte
header fields little-endian. -/
def frame (r : Record) : List Nat :=
  le32 frameTag ++ le32 imageHeight ++ le32 imageWidth ++ le32 imageChannels ++
    le32 (payloadBytes r).length ++ payloadBytes r

/-- Read one little-endian 32-bit field off the front of a byte stream. -/
def readLE32 : List Nat → Option (Nat × List Nat)
  | b0 :: b1 :: b2 :: b3 :: rest =>
      some (b0 + 256 * b1 + 65536 * b2 + 16777216 * b3, rest)
  | _ => none

/-- Frame decoder, step 1: validate the tag and dimension fields, read the
declared payload length and return exactly that many payload bytes
together with the remainder of the stream. -/
def readPayload (bs : List Nat) : Option (List Nat × List Nat) :=
  match readLE32 bs with
  | none => none
  | some (tag, bs1) =>
    if tag ≠ frameTag then none else
    match readLE32 bs1 with
    | none => none
    | some (_, bs2) =>
      match readLE32 bs2 with
      | none => none
      | some (_, bs3) =>
        match readLE32 bs3 with
        | none => none
        | some (_, bs4) =>
          match readLE32 bs4 with
          | none => none
          | some (len, bs5) =>
            if len ≤ bs5.length then some (bs5.take len, bs5.drop len)
            else none

/-- Frame decoder, step 2: reconstruct the (label, image bytes) record
from a frame payload. -/
def decodePayload (pl : List Nat) : Option Record :=
  match readLE32 pl with
  | none => none
  | some (lab, img) => some ⟨lab, img⟩

/-- Full frame decoder: record plus remainder of the stream. -/
def decodeFrame (bs : List Nat) : Option (Record × List Nat) :=
  match readPayload bs with
  | none => none
  | some (pl, rest) =>
    match decodePayload pl with
    | none => none
    | some r => some (r, rest)

theorem readLE32_le32 (n : Nat) (rest : List Nat) :
    readLE32 (le32 n ++ rest) = some (n % 4294967296, rest) := by
  simp only [le32, readLE32, List.cons_append, List.nil_append,
    Option.some.injEq, Prod.mk.injEq]
  exact ⟨by omega, trivial⟩

theorem le32_length (n : Nat) : (le32 n).length = 4 := rfl

/-- Per-split record counts returned by `convert`. -/
structure Counts where
  train : Nat
  validation : Nat
  eval : Nat
deriving DecidableEq, Repr

def Counts.zero : Counts := ⟨0, 0, 0⟩

def Counts.get (c : Counts) : Split → Nat
  | .train => c.train
  | .validation => c.validation
  | .eval => c.eval

def Counts.bump (c : Counts) : Split → Counts
  | .train => { c with train := c.train + 1 }
  | .validation => { c with validation := c.validation + 1 }
  | .eval => { c with eval := c.eval + 1 }

def Counts.total (c : Counts) : Nat :=
  c.train + c.validation + c.eval

/-- The per-split output files of the destination directory.  `none`
means the file does not exist; `some bs` is its byte contents. -/
structure DestState where
  trainFile : Option (List Nat)
  validationFile : Option (List Nat)
  evalFile : Option (List Nat)
deriving DecidableEq, Repr

def DestState.get (d : DestState) : Split → Option (List Nat)
  | .train => d.trainFile
  | .validation => d.validationFile
  | .eval => d.evalFile

def DestState.set (d : DestState) : Split → Option (List Nat) → DestState
  | .train, f => { d with trainFile := f }
  | .validation, f => { d with validationFile := f }
  | .eval, f => { d with evalFile := f }

/-- Append bytes to a split's output file, creating the file if absent. -/
def DestState.append (d : DestState) (s : Split) (bs : List Nat) : DestState :=
  d.set s (some ((d.get s).getD [] ++ bs))

/-- Modelled from the spec: the archive is a sequence of batch files, each
holding a sequence of records. -/
abbrev Archive : Type := List (List RawRecord)

def Archive.totalRecords (a : Archive) : Nat :=
  (a.map List.length).sum

/-- The filesystem state `convert` operates on: the source archive (`none`
means the source path does not exist), the destination directory's
per-split output files, and the temporary extracted batch files. -/
structure FileSystem where
  source : Option Archive
  dest : DestState
  temp : List (List RawRecord)
deriving DecidableEq

inductive ConvertError where
  | SourceUnavailable
  | MalformedRecord
  | WriteFailure
deriving DecidableEq, Repr

/-- Modelled from the spec: validation of a record read from a batch file.
A record whose declared byte length does not match its payload is
malformed. -/
def validateRecord (r : RawRecord) : Option Record :=
  if r.declaredLen = r.payload.length then some ⟨r.label, r.payload⟩ else none

/-- Boolean form of the malformedness condition. -/
def RawRecord.malformed (r : RawRecord) : Bool :=
  r.declaredLen ≠ r.payload.length

def Archive.hasMalformed (a : Archive) : Bool :=
  a.any (fun b => b.any RawRecord.malformed)

/-- Modelled from the spec: write the records of one batch file, in
sequence, to the output file of the split owning that batch file.  Each
record is validated and its frame appended; a malformed record aborts the
run with `MalformedRecord`, leaving no partial frame for it in the file. -/
def writeRecords (s : Split) :
    List RawRecord → DestState → Counts →
      Except ConvertError Unit × DestState × Counts
  | [], d, c => (.ok (), d, c)
  | r :: rest, d, c =>
    match validateRecord r with
    | none => (.error .MalformedRecord, d, c)
    | some rec => writeRecords s rest (d.append s (frame rec)) (c.bump s)

/-- Modelled from the spec: process the batch files in order, routing each
batch to the split the assignment gives its index. -/
def writeBatches (assign : Nat → Split) :
    Nat → List (List RawRecord) → DestState → Counts →
      Except ConvertError Unit × DestState × Counts
  | _, [], d, c => (.ok (), d, c)
  | i, b :: rest, d, c =>
    match writeRecords (assign i) b d c with
    | (.ok _, d1, c1) => writeBatches assign (i + 1) rest d1 c1
    | (.error e, d1, c1) => (.error e, d1, c1)

/-- All three output files created (or truncated) empty at the start of a
conversion run. -/
def emptyDest : DestState := ⟨some [], some [], some []⟩

/-- Modelled from the spec: `convert(sourcePath, destinationDirectory,
splitAssignment)`.  If the source archive does not exist the run fails
with `SourceUnavailable` and the filesystem is untouched.  Otherwise the
archive is extracted to temporary batch files, the three output files are
created/overwritten, every record is routed to the split owning its batch
file and its frame appended in read order, and the temporary extracted
data is deleted when the run completes (on success and on failure alike).
Returns the per-split record counts on success. -/
def convert (fs : FileSystem) (assign : Nat → Split) :
    Except ConvertError Counts × FileSystem :=
  match fs.source with
  | none => (.error .SourceUnavailable, fs)
  | some batches =>
    match writeBatches assign 0 batches emptyDest Counts.zero with
    | (.ok _, d, c) => (.ok c, { fs with dest := d, temp := [] })
    | (.error e, d, _) => (.error e, { fs with dest := d, temp := [] })

/-- Spec-side description of a split's output, written from the spec's
words for comparison with the implementation: the records routed to the
split, in the order they are read from the source batch files. -/
def routed (assign : Nat → Split) (s : Split) :
    Nat → List (List RawRecord) → List Record
  | _, [] => []
  | i, b :: rest =>
    (if assign i = s then b.filterMap validateRecord else []) ++
      routed assign s (i + 1) rest

/-- Spec-side description of a split's output file: the concatenation of
the frames of the records routed to that split, in read order. -/
def specFile (assign : Nat → Split) (s : Split) (batches : List (List RawRecord)) :
    List Nat :=
  ((routed assign s 0 batches).map frame).flatten

/-- An output file that is a concatenation of complete frames. -/
def FramesOnly (o : Option (List Nat)) : Prop :=
  ∃ rs : List Record, o = some ((rs.map frame).flatten)

theorem counts_bump_total (c : Counts) (s : Split) :
    (c.bump s).total = c.total + 1 := by
  cases s <;> simp [Counts.bump, Counts.total] <;> omega

theorem destState_get_set_same (d : DestState) (s : Split) (f : Option (List Nat)) :
    (d.set s f).get s = f := by
  cases s <;> rfl

theorem destState_get_set_ne (d : DestState) (s s' : Split) (f : Option (List Nat))
    (h : s ≠ s') : (d.set s f).get s' = d.get s' := by
  cases s <;> cases s' <;> first
    | rfl
    | exact absurd rfl h

theorem destState_get_append_same (d : DestState) (s : Split) (bs : List Nat) :
    (d.append s bs).get s = some ((d.get s).getD [] ++ bs) := by
  simp [DestState.append, destState_get_set_same]

theorem destState_get_append_ne (d : DestState) (s s' : Split) (bs : List Nat)
    (h : s ≠ s') : (d.append s bs).get s' = d.get s' := by
  simp [DestState.append, destState_get_set_ne _ _ _ _ h]

theorem writeRecords_ok_total (s : Split) (rs : List RawRecord) :
    ∀ (d : DestState) (c : Counts) (d' : DestState) (c' : Counts),
      writeRecords s rs d c = (.ok (), d', c') → c'.total = c.total + rs.length := by
  induction rs with
  | nil =>
    intro d c d' c' h
    simp [writeRecords] at h
    rw [← h.2]
    simp
  | cons r rest ih =>
    intro d c d' c' h
    simp only [writeRecords] at h
    cases hv : validateRecord r with
    | none => rw [hv] at h; simp at h
    | some rec =>
      rw [hv] at h
      have := ih _ _ _ _ h
      rw [this, counts_bump_total]
      simp [List.length_cons]
      omega

theorem writeBatches_ok_total (a : Nat → Split) (bs : List (List RawRecord)) :
    ∀ (i : Nat) (d : DestState) (c : Counts) (d' : DestState) (c' : Counts),
      writeBatches a i bs d c = (.ok (), d', c') →
        c'.total = c.total + Archive.totalRecords bs := by
  induction bs with
  | nil =>
    intro i d c d' c' h
    simp [writeBatches] at h
    rw [← h.2]
    simp [Archive.totalRecords]
  | cons b rest ih =>
    intro i d c d' c' h
    simp only [writeBatches] at h
    rcases hw : writeRecords (a i) b d c with ⟨u, d1, c1⟩
    rw [hw] at h
    cases u with
    | error e => simp at h
    | ok v =>
      cases v
      have h1 := ih _ _ _ _ _ h
      have h2 := writeRecords_ok_total _ _ _ _ _ _ hw
      rw [h1, h2]
      simp [Archive.totalRecords]
      omega

theorem writeRecords_get_ne (s0 s : Split) (h : s0 ≠ s) (rs : List RawRecord) :
    ∀ (d : DestState) (c : Counts),
      ((writeRecords s0 rs d c).2.1).get s = d.get s := by
  induction rs with
  | nil => intro d c; rfl
  | cons r rest ih =>
    intro d c
    simp only [writeRecords]
    cases hv : validateRecord r with
    | none => rfl
    | some rec =>
      rw [ih]
      exact destState_get_append_ne _ _ _ _ h

theorem writeRecords_ok_file (s0 : Split) (rs : List RawRecord) :
    ∀ (d : DestState) (c : Counts) (d' : DestState) (c' : Counts) (xs : List Nat),
      d.get s0 = some xs → writeRecords s0 rs d c = (.ok (), d', c') →
        d'.get s0 = some (xs ++ ((rs.filterMap validateRecord).map frame).flatten) := by
  induction rs with
  | nil =>
    intro d c d' c' xs hx h
    simp [writeRecords] at h
    rw [← h.1, hx]
    simp
  | cons r rest ih =>
    intro d c d' c' xs hx h
    simp only [writeRecords] at h
    cases hv : validateRecord r with
    | none => rw [hv] at h; simp at h
    | some rec =>
      rw [hv] at h
      have hx1 : (d.append s0 (frame rec)).get s0 = some (xs ++ frame rec) := by
        rw [destState_get_append_same, hx]
        rfl
      have := ih _ _ _ _ _ hx1 h
      rw [this]
      simp [List.filterMap_cons, hv, List.append_assoc]

theorem writeBatches_ok_file (a : Nat → Split) (s : Split) (bs : List (List RawRecord)) :
    ∀ (i : Nat) (d : DestState) (c : Counts) (d' : DestState) (c' : Counts) (xs : List Nat),
      d.get s = some xs → writeBatches a i bs d c = (.ok (), d', c') →
        d'.get s = some (xs ++ ((routed a s i bs).map frame).flatten) := by
  induction bs with
  | nil =>
    intro i d c d' c' xs hx h
    simp [writeBatches] at h
    rw [← h.1, hx, routed]
    simp
  | cons b rest ih =>
    intro i d c d' c' xs hx h
    simp only [writeBatches] at h
    rcases hw : writeRecords (a i) b d c with ⟨u, d1, c1⟩
    rw [hw] at h
    cases u with
    | error e => simp at h
    | ok v =>
      cases v
      by_cases hs : a i = s
      · subst hs
        have hx1 := writeRecords_ok_file _ _ _ _ _ _ _ hx hw
        have := ih _ _ _ _ _ _ hx1 h
        rw [this, routed]
        simp [List.append_assoc]
      · have hx1 : d1.get s = some xs := by
          have := writeRecords_get_ne _ _ hs b d c
          rw [hw] at this
          rw [this, hx]
        have := ih _ _ _ _ _ _ hx1 h
        rw [this, routed]
        simp [hs]

theorem framesOnly_empty : FramesOnly (some []) :=
  ⟨[], rfl⟩

theorem framesOnly_append (o : Option (List Nat)) (rec : Record)
    (h : FramesOnly o) : FramesOnly (some (o.getD [] ++ frame rec)) := by
  obtain ⟨rs, hrs⟩ := h
  refine ⟨rs ++ [rec], ?_⟩
  rw [hrs]
  simp

theorem writeRecords_framesOnly (s0 : Split) (rs : List RawRecord) :
    ∀ (d : DestState) (c : Counts), (∀ s, FramesOnly (d.get s)) →
      ∀ s, FramesOnly (((writeRecords s0 rs d c).2.1).get s) := by
  induction rs with
  | nil => intro d c hd s; exact hd s
  | cons r rest ih =>
    intro d c hd s
    simp only [writeRecords]
    cases hv : validateRecord r with
    | none => exact hd s
    | some rec =>
      refine ih _ _ (fun s' => ?_) s
      by_cases hs : s0 = s'
      · subst hs
        rw [destState_get_append_same]
        exact framesOnly_append _ _ (hd s0)
      · rw [destState_get_append_ne _ _ _ _ hs]
        exact hd s'

theorem writeBatches_framesOnly (a : Nat → Split) (bs : List (List RawRecord)) :
    ∀ (i : Nat) (d : DestState) (c : Counts), (∀ s, FramesOnly (d.get s)) →
      ∀ s, FramesOnly (((writeBatches a i bs d c).2.1).get s) := by
  induction bs with
  | nil => intro i d c hd s; exact hd s
  | cons b rest ih =>
    intro i d c hd s
    simp only [writeBatches]
    rcases hw : writeRecords (a i) b d c with ⟨u, d1, c1⟩
    have hd1 : ∀ s', FramesOnly (d1.get s') := by
      intro s'
      have := writeRecords_framesOnly (a i) b d c hd s'
      rw [hw] at this
      exact this
    cases u with
    | error e => exact hd1 s
    | ok v => exact ih _ _ _ hd1 s

theorem validateRecord_none_iff (r : RawRecord) :
    validateRecord r = none ↔ r.malformed = true := by
  by_cases h : r.declaredLen = r.payload.length <;>
    simp [validateRecord, RawRecord.malformed, h]

theorem writeRecords_fst (s0 : Split) (rs : List RawRecord) :
    ∀ (d : DestState) (c : Counts),
      (writeRecords s0 rs d c).1 =
        if rs.any RawRecord.malformed then .error .MalformedRecord else .ok () := by
  induction rs with
  | nil => intro d c; rfl
  | cons r rest ih =>
    intro d c
    simp only [writeRecords, List.any_cons]
    cases hv : validateRecord r with
    | none =>
      have hm : r.malformed = true := (validateRecord_none_iff r).mp hv
      simp [hm]
    | some rec =>
      have hm : r.malformed = false := by
        cases h : r.malformed
        · rfl
        · exact absurd ((validateRecord_none_iff r).mpr h) (by simp [hv])
      simp only [hm, Bool.false_or]
      exact ih _ _

theorem writeBatches_fst (a : Nat → Split) (bs : List (List RawRecord)) :
    ∀ (i : Nat) (d : DestState) (c : Counts),
      (writeBatches a i bs d c).1 =
        if bs.any (fun b => b.any RawRecord.malformed) then .error .MalformedRecord
        else .ok () := by
  induction bs with
  | nil => intro i d c; rfl
  | cons b rest ih =>
    intro i d c
    simp only [writeBatches, List.any_cons]
    rcases hw : writeRecords (a i) b d c with ⟨u, d1, c1⟩
    have hu := writeRecords_fst (a i) b d c
    rw [hw] at hu
    by_cases hb : b.any RawRecord.malformed = true
    · rw [hb] at hu
      simp at hu
      subst hu
      simp [hb]
    · have hb' : b.any RawRecord.malformed = false := by
        cases h : b.any RawRecord.malformed
        · rfl
        · exact absurd h hb
      rw [hb'] at hu
      simp at hu
      subst hu
      simp only [hb', Bool.false_or]
      exact ih _ _ _

theorem readPayload_frame_aux (r : Record) (rest : List Nat)
    (hlen : (payloadBytes r).length < 4294967296) :
    readPayload (frame r ++ rest) = some (payloadBytes r, rest) := by
  have h1 : frame r ++ rest =
      le32 frameTag ++ (le32 imageHeight ++ (le32 imageWidth ++ (le32 imageChannels ++
        (le32 (payloadBytes r).length ++ (payloadBytes r ++ rest))))) := by
    simp [frame, List.append_assoc]
  have hle : (payloadBytes r).length ≤ (payloadBytes r ++ rest).length := by
    simp [List.length_append]
  rw [h1]
  unfold readPayload
  simp only [readLE32_le32, Nat.mod_eq_of_lt hlen, frameTag]
  norm_num

theorem decodePayload_payloadBytes (r : Record) (hlab : r.label < 4294967296) :
    decodePayload (payloadBytes r) = some r := by
  unfold decodePayload payloadBytes
  rw [readLE32_le32, Nat.mod_eq_of_lt hlab]

theorem decodeFrame_frame_aux (r : Record) (rest : List Nat)
    (hlab : r.label < 4294967296) (hlen : (payloadBytes r).length < 4294967296) :
    decodeFrame (frame r ++ rest) = some (r, rest) := by
  unfold decodeFrame
  simp only [readPayload_frame_aux r rest hlen, decodePayload_payloadBytes r hlab]

theorem emptyDest_get (s : Split) : emptyDest.get s = some [] := by
  cases s <;> rfl

/-- C1: for every archive with N total records partitioned by the split
assignment into the three disjoint, exhaustive splits, a successful
`convert` returns per-split record counts whose sum equals N. -/
theorem convert_total_count (fs : FileSystem) (a : Nat → Split) (b : Archive)
    (c : Counts) (fs' : FileSystem) (hsrc : fs.source = some b)
    (h : convert fs a = (.ok c, fs')) :
    c.train + c.validation + c.eval = b.totalRecords := by
  simp only [convert, hsrc] at h
  rcases hwb : writeBatches a 0 b emptyDest Counts.zero with ⟨u, d0, c0⟩
  rw [hwb] at h
  cases u with
  | error e => simp at h
  | ok v =>
    cases v
    simp at h
    obtain ⟨hc, _⟩ := h
    have := writeBatches_ok_total a b 0 emptyDest Counts.zero d0 c0 hwb
    rw [hc] at this
    have hz : Counts.zero.total = 0 := rfl
    rw [hz] at this
    simpa [Counts.total] using this

/-- C2: a frame written for a record with payload length L, read back by
the frame decoder, yields exactly the L payload bytes that were written
(`payloadBytes r`, whose length is the length field of the frame) and
reconstructs the original label and image bytes unchanged. -/
theorem frame_roundtrip (r : Record) (rest : List Nat)
    (hlab : r.label < 4294967296) (hlen : (payloadBytes r).length < 4294967296) :
    readPayload (frame r ++ rest) = some (payloadBytes r, rest) ∧
      decodeFrame (frame r ++ rest) = some (r, rest) :=
  ⟨readPayload_frame_aux r rest hlen, decodeFrame_frame_aux r rest hlab hlen⟩

/-- C3: conversion is deterministic: a second run of `convert` on the
filesystem produced by a successful first run (same archive, same split
assignment, no sampling or randomness anywhere in the model) returns the
same counts and leaves byte-identical output files. -/
theorem convert_deterministic (fs fs' : FileSystem) (a : Nat → Split) (c : Counts)
    (h : convert fs a = (.ok c, fs')) :
    (convert fs' a).1 = .ok c ∧ (convert fs' a).2.dest = fs'.dest := by
  cases hsrc : fs.source with
  | none => simp [convert, hsrc] at h
  | some b =>
    simp only [convert, hsrc] at h
    rcases hwb : writeBatches a 0 b emptyDest Counts.zero with ⟨u, d0, c0⟩
    rw [hwb] at h
    cases u with
    | error e => simp at h
    | ok v =>
      cases v
      simp at h
      obtain ⟨hc, hfs⟩ := h
      have hsrc' : fs'.source = some b := by rw [← hfs]
      have hdest : fs'.dest = d0 := by rw [← hfs]
      constructor
      · simp only [convert, hsrc', hwb, hc]
      · simp only [convert, hsrc', hwb, hdest]

/-- C4: for every successful conversion and every split, the output file
of that split is exactly the concatenation of the frames of the records
routed to that split, in the order they were read from the source batch
files. -/
theorem convert_output_concatenation (fs : FileSystem) (a : Nat → Split) (b : Archive)
    (c : Counts) (fs' : FileSystem) (hsrc : fs.source = some b)
    (h : convert fs a = (.ok c, fs')) :
    ∀ s, fs'.dest.get s = some (specFile a s b) := by
  intro s
  simp only [convert, hsrc] at h
  rcases hwb : writeBatches a 0 b emptyDest Counts.zero with ⟨u, d0, c0⟩
  rw [hwb] at h
  cases u with
  | error e => simp at h
  | ok v =>
    cases v
    simp at h
    obtain ⟨_, hfs⟩ := h
    have hfile := writeBatches_ok_file a s b 0 emptyDest Counts.zero d0 c0 []
      (emptyDest_get s) hwb
    rw [← hfs]
    simpa [specFile] using hfile

/-- C5: an archive containing a record whose declared payload length does
not match its actual byte count makes `convert` fail with
`MalformedRecord` (the record is not silently skipped), and every output
file is a concatenation of complete frames — no partially written frame
for the offending record is appended. -/
theorem convert_malformed_record (fs : FileSystem) (a : Nat → Split) (b : Archive)
    (hsrc : fs.source = some b) (hm : b.hasMalformed = true) :
    (convert fs a).1 = .error .MalformedRecord ∧
      ∀ s, ∃ rs : List Record,
        ((convert fs a).2.dest).get s = some ((rs.map frame).flatten) := by
  simp only [convert, hsrc]
  rcases hwb : writeBatches a 0 b emptyDest Counts.zero with ⟨u, d0, c0⟩
  have hu := writeBatches_fst a b 0 emptyDest Counts.zero
  rw [hwb] at hu
  unfold Archive.hasMalformed at hm
  rw [hm] at hu
  simp at hu
  subst hu
  have hf : ∀ s, FramesOnly (d0.get s) := by
    intro s
    have := writeBatches_framesOnly a b 0 emptyDest Counts.zero
      (fun s' => by rw [emptyDest_get]; exact framesOnly_empty) s
    rw [hwb] at this
    exact this
  exact ⟨rfl, fun s => hf s⟩

/-- C6: pointing `convert` at a non-existent source path fails with
`SourceUnavailable` and leaves the whole destination state unchanged: no
file is created and no pre-existing file is truncated. -/
theorem convert_source_unavailable (fs : FileSystem) (a : Nat → Split)
    (h : fs.source = none) :
    convert fs a = (.error .SourceUnavailable, fs) := by
  simp [convert, h]

/-- C8: after a conversion run completes (the archive was opened), all
temporary extracted batch files are deleted, the read-only source archive
is unchanged, and the per-split output files exist (created or
overwritten); nothing else of the filesystem is modified. -/
theorem convert_cleanup (fs : FileSystem) (a : Nat → Split) (b : Archive)
    (hsrc : fs.source = some b) :
    (convert fs a).2.temp = [] ∧ (convert fs a).2.source = fs.source ∧
      ∀ s, (((convert fs a).2.dest).get s).isSome = true := by
  simp only [convert, hsrc]
  rcases hwb : writeBatches a 0 b emptyDest Counts.zero with ⟨u, d0, c0⟩
  have hf : ∀ s, FramesOnly (d0.get s) := by
    intro s
    have := writeBatches_framesOnly a b 0 emptyDest Counts.zero
      (fun s' => by rw [emptyDest_get]; exact framesOnly_empty) s
    rw [hwb] at this
    exact this
  cases u with
  | error e =>
    refine ⟨rfl, rfl, fun s => ?_⟩
    obtain ⟨rs, hrs⟩ := hf s
    show (d0.get s).isSome = true
    rw [hrs]
    rfl
  | ok v =>
    cases v
    refine ⟨rfl, rfl, fun s => ?_⟩
    obtain ⟨rs, hrs⟩ := hf s
    show (d0.get s).isSome = true
    rw [hrs]
    rfl

/-- Synthetic archive of exactly 3 batch files of 2 records each. -/
def sampleBatch1 : List RawRecord := [⟨0, 2, [10, 11]⟩, ⟨1, 2, [12, 13]⟩]

def sampleBatch2 : List RawRecord := [⟨2, 2, [20, 21]⟩, ⟨3, 2, [22, 23]⟩]

def sampleBatch3 : List RawRecord := [⟨4, 2, [30, 31]⟩, ⟨5, 2, [32, 33]⟩]

def sampleArchive : Archive := [sampleBatch1, sampleBatch2, sampleBatch3]

/-- Split assignment routing batch file 1 to train, batch file 2 to
validation, batch file 3 to eval. -/
def sampleAssign : Nat → Split := fun i =>
  if i = 0 then .train else if i = 1 then .validation else .eval

def sampleFS : FileSystem := ⟨some sampleArchive, ⟨none, none, none⟩, []⟩

/-- The filesystem produced by converting the synthetic archive. -/
def sampleRun : FileSystem := (convert sampleFS sampleAssign).2

/-- C7: on a synthetic archive with exactly 3 batch files of 2 records
each, with the assignment file 1 to train, file 2 to validation, file 3
to eval, `convert` returns counts train=2, validation=2, eval=2 and
produces exactly three output files, each holding exactly the 2 frames of
its batch in source order. -/
theorem convert_three_batches :
    (convert sampleFS sampleAssign).1 = .ok ⟨2, 2, 2⟩ ∧
    (convert sampleFS sampleAssign).2.dest.trainFile =
      some (frame ⟨0, [10, 11]⟩ ++ frame ⟨1, [12, 13]⟩) ∧
    (convert sampleFS sampleAssign).2.dest.validationFile =
      some (frame ⟨2, [20, 21]⟩ ++ frame ⟨3, [22, 23]⟩) ∧
    (convert sampleFS sampleAssign).2.dest.evalFile =
      some (frame ⟨4, [30, 31]⟩ ++ frame ⟨5, [32, 33]⟩) := by
  refine ⟨?_, ?_, ?_, ?_⟩ <;> rfl

theorem convert_total_count_witness :
    sampleFS.source = some sampleArchive ∧
    convert sampleFS sampleAssign = (.ok ⟨2, 2, 2⟩, sampleRun) ∧
    (2 : Nat) + 2 + 2 = sampleArchive.totalRecords := by
  refine ⟨rfl, rfl, ?_⟩
  exact convert_total_count sampleFS sampleAssign sampleArchive ⟨2, 2, 2⟩ sampleRun rfl rfl

def sampleRecord : Record := ⟨3, [10, 20]⟩

theorem frame_roundtrip_witness :
    sampleRecord.label < 4294967296 ∧
    (payloadBytes sampleRecord).length < 4294967296 ∧
    (readPayload (frame sampleRecord ++ [99]) = some (payloadBytes sampleRecord, [99]) ∧
      decodeFrame (frame sampleRecord ++ [99]) = some (sampleRecord, [99])) :=
  ⟨by decide, by decide, frame_roundtrip sampleRecord [99] (by decide) (by decide)⟩

theorem convert_deterministic_witness :
    convert sampleFS sampleAssign = (.ok ⟨2, 2, 2⟩, sampleRun) ∧
    ((convert sampleRun sampleAssign).1 = .ok ⟨2, 2, 2⟩ ∧
      (convert sampleRun sampleAssign).2.dest = sampleRun.dest) :=
  ⟨rfl, convert_deterministic sampleFS sampleRun sampleAssign ⟨2, 2, 2⟩ rfl⟩

theorem convert_output_concatenation_witness :
    sampleFS.source = some sampleArchive ∧
    convert sampleFS sampleAssign = (.ok ⟨2, 2, 2⟩, sampleRun) ∧
    sampleRun.dest.get .train = some (specFile sampleAssign .train sampleArchive) :=
  ⟨rfl, rfl,
    convert_output_concatenation sampleFS sampleAssign sampleArchive ⟨2, 2, 2⟩
      sampleRun rfl rfl .train⟩

/-- An archive whose second record declares 5 payload bytes but holds 1. -/
def badArchive : Archive := [[⟨0, 2, [10, 11]⟩, ⟨1, 5, [12]⟩]]

def badFS : FileSystem := ⟨some badArchive, ⟨none, none, none⟩, []⟩

theorem convert_malformed_record_witness :
    badFS.source = some badArchive ∧
    badArchive.hasMalformed = true ∧
    ((convert badFS sampleAssign).1 = .error .MalformedRecord ∧
      ∃ rs : List Record,
        ((convert badFS sampleAssign).2.dest).get .train =
          some ((rs.map frame).flatten)) := by
  refine ⟨rfl, by decide, ?_, ?_⟩
  · exact (convert_malformed_record badFS sampleAssign badArchive rfl (by decide)).1
  · exact (convert_malformed_record badFS sampleAssign badArchive rfl (by decide)).2 .train

def missingFS : FileSystem := ⟨none, ⟨some [1, 2], none, none⟩, []⟩

theorem convert_source_unavailable_witness :
    missingFS.source = none ∧
    convert missingFS sampleAssign = (.error .SourceUnavailable, missingFS) :=
  ⟨rfl, convert_source_unavailable missingFS sampleAssign rfl⟩

theorem convert_cleanup_witness :
    sampleFS.source = some sampleArchive ∧
    ((convert sampleFS sampleAssign).2.temp = [] ∧
      (convert sampleFS sampleAssign).2.source = sampleFS.source ∧
      ((((convert sampleFS sampleAssign).2.dest).get .train).isSome = true)) := by
  refine ⟨rfl, ?_, ?_, ?_⟩
  · exact (convert_cleanup sampleFS sampleAssign sampleArchive rfl).1
  · exact (convert_cleanup sampleFS sampleAssign sampleArchive rfl).2.1
  · exact (convert_cleanup sampleFS sampleAssign sampleArchive rfl).2.2 .train

end RecordConverter

namespace BuildCell

/-- The build-context directory `container/`: the algorithm code under
`cifar10/` and the optional `.aws` credentials directory, each modelled as
its file contents. -/
structure BuildContext where
  cifar10 : List String
  aws : Option (List String)
deriving DecidableEq

/-- A built container image: what the Dockerfile placed at `/opt/ml/code`
and at `/root/.aws`. -/
structure Image where
  optMlCode : List String
  rootAws : Option (List String)
deriving DecidableEq

/-- Semantics of the notebook's Dockerfile applied to a build context:
`COPY /cifar10 /opt/ml/code` and `COPY .aws /root/.aws`. -/
def dockerBuild (ctx : BuildContext) : Image :=
  ⟨ctx.cifar10, ctx.aws⟩

/-- Host state seen by the build-and-push cell: the user's `~/.aws`
credentials, the build context, the locally tagged image and the image
pushed to the registry. -/
structure HostState where
  homeAws : List String
  context : BuildContext
  localImage : Option Image
  pushedImage : Option Image
deriving DecidableEq

/-- The notebook's build-and-push shell cell: `cp -r ~/.aws container`,
then `docker build`, `docker tag` and `docker push`, and finally
`rm -rf .aws` inside the context directory. -/
def buildAndPushCell (st : HostState) : HostState :=
  let ctx1 : BuildContext := { st.context with aws := some st.homeAws }
  let img := dockerBuild ctx1
  { homeAws := st.homeAws
    context := { ctx1 with aws := none }
    localImage := some img
    pushedImage := some img }

/-- C9: after the build-and-push cell completes, the `.aws` directory is
removed from the build context, yet the built and pushed image still
contains the credentials at `/root/.aws` via the Dockerfile's COPY; the
final cleanup does not affect the image contents. -/
theorem buildcell_credentials (st : HostState) :
    (buildAndPushCell st).context.aws = none ∧
    (buildAndPushCell st).pushedImage =
      some ⟨st.context.cifar10, some st.homeAws⟩ ∧
    (buildAndPushCell st).localImage = (buildAndPushCell st).pushedImage :=
  ⟨rfl, rfl, rfl⟩

/-- The registry: `aws ecr describe-repositories` succeeds exactly when
the named repository exists. -/
def describeSucceeds (repos : List String) (name : String) : Bool :=
  repos.contains name

/-- The cell's conditional repository setup: `aws ecr create-repository`
runs only when `describe-repositories` fails. -/
def ensureRepository (repos : List String) (name : String) : List String :=
  if describeSucceeds repos name then repos else name :: repos

/-- C10: when the ECR repository already exists, the repository-setup step
leaves the registry unchanged, and the step is idempotent across repeated
runs. -/
theorem ecr_setup_idempotent (repos : List String) (name : String) :
    (repos.contains name = true → ensureRepository repos name = repos) ∧
    ensureRepository (ensureRepository repos name) name =
      ensureRepository repos name := by
  constructor
  · intro h
    have hm : name ∈ repos := by simpa using h
    simp [ensureRepository, describeSucceeds, hm]
  · by_cases h : name ∈ repos
    · simp [ensureRepository, describeSucceeds, h]
    · simp [ensureRepository, describeSucceeds, h]

theorem ecr_setup_idempotent_witness :
    List.contains ["repo-a"] "repo-a" = true ∧
    (ensureRepository ["repo-a"] "repo-a" = ["repo-a"] ∧
      ensureRepository (ensureRepository ["repo-a"] "repo-a") "repo-a" =
        ensureRepository ["repo-a"] "repo-a") := by
  refine ⟨by decide, ?_, ?_⟩
  · exact (ecr_setup_idempotent ["repo-a"] "repo-a").1 (by decide)
  · exact (ecr_setup_idempotent ["repo-a"] "repo-a").2

end BuildCell
